import Mathlib

/-!
Verification development for the Automated_Flow_Matrix repository.

Shallow embedding of the core logic of the five source scripts:
  * address / CIDR parsing and membership (the `ipaddress` usages),
  * zone resolution (`ip_to_zone` in `UpdateMatrix.py` and `DataPopulation.py`),
  * next-hop computation (`Modules/Stormshield/next_hop_calculator.py`),
  * matrix reconciliation (`UpdateMatrix.py` main flow; `update_matrix.py` is the
    same pipeline minus zone enrichment),
  * version selection and bumping (`get_latest_matrix` / `next_version`).

Machine integers do not occur: IPv4 addresses are 32-bit values represented as
`Nat` (all arithmetic stays below 2^32 by construction), strings are Lean
`String`s.  File I/O, pandas column ordering and console output are out of
scope; tables are lists of records in file order.
-/

/-! ### Decimal digits and IPv4 / CIDR parsing

`ipaddress.ip_address` / `IPv4Network` accept dotted-quad text; modern Python
rejects empty octets, non-digits, leading zeros and values above 255.  Parsing
is modelled on `List Char`; a failed parse is `none` (Python: `ValueError`).
-/

def digitsToNat (cs : List Char) : Nat :=
  cs.foldl (fun n c => n * 10 + (c.toNat - 48)) 0

/-- Split a character list at every occurrence of `c` (Python `str.split(c)`,
`String.splitOn` for a one-character separator). -/
def splitOnChar (c : Char) : List Char → List (List Char)
  | [] => [[]]
  | x :: xs =>
    let r := splitOnChar c xs
    if x = c then [] :: r
    else
      match r with
      | [] => [[x]]
      | g :: gs => (x :: g) :: gs

/-- One octet of a dotted quad: digits only, no leading zero, value ≤ 255. -/
def parseOctet (cs : List Char) : Option Nat :=
  match cs with
  | [] => none
  | c :: rest =>
    if (c :: rest).all Char.isDigit then
      if c = '0' ∧ rest ≠ [] then none
      else if digitsToNat (c :: rest) ≤ 255 then some (digitsToNat (c :: rest)) else none
    else none

/-- `ipaddress.IPv4Address` on a character list: value of the address as a Nat < 2^32. -/
def parseIPv4Chars (cs : List Char) : Option Nat :=
  match (splitOnChar '.' cs).map parseOctet with
  | [some a, some b, some c, some d] => some (((a * 256 + b) * 256 + c) * 256 + d)
  | _ => none

def parseIPv4 (s : String) : Option Nat :=
  parseIPv4Chars s.toList

/-- A CIDR network: base address and prefix length. -/
structure Network where
  base : Nat
  pfx : Nat
deriving DecidableEq, Repr

/-- Membership of address `a` in network `n`: the top `pfx` bits agree
(`ip_addr in network` in Python). -/
def inNetwork (a : Nat) (n : Network) : Bool :=
  a / 2 ^ (32 - n.pfx) == n.base / 2 ^ (32 - n.pfx)

/-- Prefix-length text: digits only, no leading zero, value ≤ 32. -/
def parsePfx (cs : List Char) : Option Nat :=
  match cs with
  | [] => none
  | c :: rest =>
    if (c :: rest).all Char.isDigit then
      if c = '0' ∧ rest ≠ [] then none
      else if digitsToNat (c :: rest) ≤ 32 then some (digitsToNat (c :: rest)) else none
    else none

/-- `ipaddress.IPv4Network(s)` with the default `strict=True`: a bare address
means a /32; host bits set below the prefix are an error. -/
def parseCIDR (s : String) : Option Network :=
  match splitOnChar '/' s.toList with
  | [a] => (parseIPv4Chars a).map (fun x => ⟨x, 32⟩)
  | [a, p] =>
    match parseIPv4Chars a, parsePfx p with
    | some x, some pl => if x % 2 ^ (32 - pl) = 0 then some ⟨x, pl⟩ else none
    | _, _ => none
  | _ => none

/-! ### Zone resolution

`cmdb_network.csv` rows carry a subnet, a zone and a type.  The subnet text is
parsed by `ipaddress.ip_network` when the table is consulted; a malformed
subnet aborts the whole run, so entries are modelled already structured. -/

structure ZoneEntry where
  network : Network
  zone : String
  ztype : String
deriving DecidableEq, Repr

/-- `ip_to_zone` of `UpdateMatrix.py` (lines 90–110): unparseable address →
`None`; otherwise linear scan of the table in order, first containing network
wins, returning the row's zone. -/
def ip_to_zone (ip : String) (tbl : List ZoneEntry) : Option String :=
  match parseIPv4 ip with
  | none => none
  | some a => (tbl.find? (fun e => inNetwork a e.network)).map ZoneEntry.zone

/-- `ip_to_zone` of `DataPopulation.py` (lines 52–72): same scan, but the whole
row is returned. -/
def ip_to_zone_dp (ip : String) (tbl : List ZoneEntry) : Option ZoneEntry :=
  match parseIPv4 ip with
  | none => none
  | some a => tbl.find? (fun e => inNetwork a e.network)

/-- A raw flow of `flows.csv` as consumed by `DataPopulation.py`. -/
structure InFlow where
  source_name : String
  source_ip : String
  destination_name : String
  destination_ip : String
deriving DecidableEq, Repr

/-- The enriched flow produced by `dataPopulation`. -/
structure PopFlow where
  source_name : String
  source_zone : String
  destination_name : String
  destination_zone : String
deriving DecidableEq, Repr

/-- `dataPopulation(row)` of `DataPopulation.py` (lines 74–93): the lookup
result is subscripted unconditionally (`zone_source['type'][0]`), so a failed
lookup — or an empty `type` — raises; a raised exception is modelled as
`none`. -/
def dataPopulation (r : InFlow) (tbl : List ZoneEntry) : Option PopFlow :=
  match ip_to_zone_dp r.source_ip tbl, ip_to_zone_dp r.destination_ip tbl with
  | some zs, some zd =>
    match zs.ztype.toList, zd.ztype.toList with
    | c1 :: _, c2 :: _ =>
      some { source_name := String.mk [c1] ++ "_" ++ r.source_name,
             source_zone := zs.zone,
             destination_name := String.mk [c2] ++ "_" ++ r.destination_name,
             destination_zone := zd.zone }
    | _, _ => none
  | _, _ => none

/-! ### Next-hop calculation (`Modules/Stormshield/next_hop_calculator.py`)

`find_matching_route` annotates each route with its prefix length (the literal
default `"0.0.0.0/0"` gets 0, a malformed `Address` is skipped), sorts by
prefix length descending with Python's stable `list.sort(..., reverse=True)`,
and returns the first annotated route whose network contains the destination
(the default route matches everything). -/

structure RouteEntry where
  address : String
  gateway : Option String
deriving DecidableEq, Repr

/-- Prefix length a route is annotated with, `none` when the entry is skipped
as malformed (lines 98–109). -/
def annotKey (r : RouteEntry) : Option Nat :=
  if r.address == "0.0.0.0/0" then some 0
  else (parseCIDR r.address).map Network.pfx

def annot1 (r : RouteEntry) : Option (RouteEntry × Nat) :=
  (annotKey r).map (fun p => (r, p))

/-- The containment test used in the scan loop (lines 115–125). -/
def scanMatch (a : Nat) (r : RouteEntry) : Bool :=
  if r.address == "0.0.0.0/0" then true
  else
    match parseCIDR r.address with
    | some n => inNetwork a n
    | none => false

/-- Stable insertion used to model Python's stable sort: `x` goes after every
element whose key is ≥ its own. -/
def insStable {α β : Type} [LinearOrder β] (k : α → β) (x : α) : List α → List α
  | [] => [x]
  | y :: ys => if k x ≤ k y then y :: insStable k x ys else x :: y :: ys

/-- Stable sort, descending by `k` (Python `sort(key=k, reverse=True)`:
elements with equal keys keep their original relative order). -/
def stableSortDesc {α β : Type} [LinearOrder β] (k : α → β) (l : List α) : List α :=
  l.foldl (fun acc z => insStable k z acc) []

/-- Descending sortedness by the key `k`. -/
def SortedDesc {α β : Type} [LinearOrder β] (k : α → β) (l : List α) : Prop :=
  l.Pairwise (fun a b => k b ≤ k a)

/-- Invariant maintained while the elements after `x` are inserted: the
accumulator is sorted and `x` is preceded only by elements that fail the scan
predicate and have keys ≥ its own. -/
def GoodAcc {α β : Type} [LinearOrder β] (k : α → β) (q : α → Bool) (x : α)
    (acc : List α) : Prop :=
  SortedDesc k acc ∧
    ∃ l1 l2, acc = l1 ++ x :: l2 ∧ ∀ z ∈ l1, q z = false ∧ k x ≤ k z

/-- `find_matching_route(dest_ip, routes)` (lines 84–129). -/
def find_matching_route (dest : String) (routes : List RouteEntry) : Option RouteEntry :=
  match parseIPv4 dest with
  | none => none
  | some a =>
    ((stableSortDesc Prod.snd (routes.filterMap annot1)).find?
      (fun p => scanMatch a p.1)).map Prod.fst

/-- `is_same_network(source_ip, dest_ip, subnet_mask)` (lines 65–82):
`IPv4Network(f"{source_ip}/{mask}", strict=False)` truncates host bits, then
tests membership of the destination; any exception yields `False`. -/
def is_same_network (src dst : String) (mask : Nat) : Bool :=
  match parseIPv4 src, parseIPv4 dst with
  | some s, some d => inNetwork d ⟨s, mask⟩
  | _, _ => false

/-- `calculate_next_hop(source_ip, dest_ip, routes)` (lines 131–165); the
`Gateway` field is used when present and truthy (non-empty). -/
def calculate_next_hop (src dst : String) (routes : List RouteEntry) : String :=
  if is_same_network src dst 24 then "DIRECT"
  else
    match find_matching_route dst routes with
    | some r =>
      match r.gateway with
      | some g => if g = "" then "DIRECT" else g
      | none => "DIRECT"
    | none => "NO_ROUTE"

/-! ### The flow matrix and reconciliation (`UpdateMatrix.py` main flow)

A matrix row: the four business-key columns, the `action` column, the two zone
columns inserted by enrichment (absent = `none`, matching pandas `None`/NaN),
and one representative free data column (`desc`).  The positional `ID` column
is attached separately (`IdRow`) because the pipeline drops and recomputes it. -/

structure Row where
  source : String
  zone_source : Option String
  destination : String
  zone_destination : Option String
  port : String
  protocol : String
  action : String
  desc : String
deriving DecidableEq, Repr

def FlowKey := String × String × String × String
deriving DecidableEq, Repr

/-- `KEY_COLUMNS = ['source', 'destination', 'port', 'protocol']`. -/
def keyOf (r : Row) : FlowKey := (r.source, r.destination, r.port, r.protocol)

/-- ASCII `str.lower` (the inputs in question are ASCII action tokens). -/
def lowerStr (s : String) : String := ⟨s.toList.map Char.toLower⟩

/-- A removal marker: `action.str.lower() == 'supprimer'` (line 187). -/
def isRemove (r : Row) : Bool := lowerStr r.action == "supprimer"

/-- The catch-all filter (lines 210–212): `action.str.lower() == 'block'`
and both endpoints are the literal `"any"`.  Port and protocol are not
consulted. -/
def isBlockAllRow (r : Row) : Bool :=
  lowerStr r.action == "block" && r.source == "any" && r.destination == "any"

/-- `zone_source`/`zone_destination` enrichment of the incoming batch
(lines 155–159): each record passes through with the lookup result, which is
`None` when resolution fails. -/
def enrichZones (rows : List Row) (tbl : List ZoneEntry) : List Row :=
  rows.map fun r =>
    { r with zone_source := ip_to_zone r.source tbl,
             zone_destination := ip_to_zone r.destination tbl }

/-- A pandas row label after the two `set_index` lines: the previous matrix is
indexed by FlowKey, the incoming frame keeps its integer `RangeIndex` because
the result of `df_csv.set_index(KEY_COLUMNS, inplace=False)` (line 176) is
discarded. -/
inductive Idx where
  | key (k : FlowKey)
  | pos (n : Nat)
deriving DecidableEq, Repr

/-- `DataFrame.update` (line 179): each row of `self` whose label also occurs
in `other` has its (non-NA) cells overwritten by `other`'s row; rows whose
label does not occur are untouched. -/
def dfUpdate (self other : List (Idx × Row)) : List (Idx × Row) :=
  self.map fun p =>
    match other.find? (fun q => q.1 == p.1) with
    | some q => (p.1, q.2)
    | none => p

/-- Lines 175–183: update existing flows, then append the incoming rows whose
key is not among the previous matrix's keys. -/
def mergeStep (prev inc : List Row) : List Row :=
  let selfIx : List (Idx × Row) := prev.map (fun r => (Idx.key (keyOf r), r))
  let otherIx : List (Idx × Row) :=
    (List.range inc.length).zip inc |>.map (fun p => (Idx.pos p.1, p.2))
  let updated := (dfUpdate selfIx otherIx).map Prod.snd
  updated ++ inc.filter (fun r => decide (keyOf r ∉ prev.map keyOf))

/-- Lines 186–188: drop every row whose key matches a removal marker's key. -/
def removeStep (merged inc : List Row) : List Row :=
  let toRemove := (inc.filter isRemove).map keyOf
  merged.filter (fun r => decide (keyOf r ∉ toRemove))

/-- The merged result of one reconciliation (steps 1–2 of the algorithm). -/
def mergedResult (prev inc : List Row) : List Row :=
  removeStep (mergeStep prev inc) inc

structure IdRow where
  id : Nat
  row : Row
deriving DecidableEq, Repr

/-- Line 197: `df_updated.insert(0, 'ID', range(1, len(df_updated) + 1))`. -/
def assignIdsFrom (n : Nat) : List Row → List IdRow
  | [] => []
  | r :: rs => ⟨n, r⟩ :: assignIdsFrom (n + 1) rs

def assignIds (rows : List Row) : List IdRow := assignIdsFrom 1 rows

/-- The freshly constructed catch-all rule (lines 217–227): every column blank
except the listed ones; the zone columns exist here and are set to "any". -/
def blockAllRow : Row :=
  { source := "any", zone_source := some "any",
    destination := "any", zone_destination := some "any",
    port := "any", protocol := "any", action := "block", desc := "" }

/-- One reconciliation run on in-memory tables (lines 175–229): merge, apply
removals, renumber IDs densely, drop every old catch-all row, append the fresh
catch-all with ID = remaining row count + 1.  The previous matrix's persisted
`ID` column is dropped unread (lines 195–196), so `prev` carries no IDs. -/
def reconcile (prev inc : List Row) : List IdRow :=
  let withIds := assignIds (mergedResult prev inc)
  let noBlock := withIds.filter (fun ir => !(isBlockAllRow ir.row))
  noBlock ++ [⟨noBlock.length + 1, blockAllRow⟩]

/-- Forget the positional IDs of a persisted matrix (they are dropped and
recomputed by the next run). -/
def stripIds (m : List IdRow) : List Row := m.map IdRow.row

/-! ### Versioned matrix filenames (`get_latest_matrix` / `next_version`)

`re.match(r"Matrix_v(\d+)\.(\d+)\.xlsx", f)` anchors at the start only: the
literal header, a nonempty greedy digit run, a dot, a second digit run, then
the literal `.xlsx`; trailing characters are allowed.  `int()` of a digit run
and `str()` of an int are ordinary decimal conversions. -/

def digitChar (d : Nat) : Char :=
  match d with
  | 0 => '0' | 1 => '1' | 2 => '2' | 3 => '3' | 4 => '4'
  | 5 => '5' | 6 => '6' | 7 => '7' | 8 => '8' | _ => '9'

/-- Decimal digits, fuel-based so that the recursion is structural (`fuel > n`
always suffices because `n / 10 < n` for `n ≥ 10`). -/
def natDigitsAux : Nat → Nat → List Char
  | 0, _ => []
  | fuel + 1, n =>
    if n < 10 then [digitChar n]
    else natDigitsAux fuel (n / 10) ++ [digitChar (n % 10)]

/-- Decimal digits of `n`, most significant first (Python `str(n)`). -/
def natDigits (n : Nat) : List Char := natDigitsAux (n + 1) n

def natRepr (n : Nat) : String := ⟨natDigits n⟩

/-- Expect a literal dot and return what follows it. -/
def expectDot : List Char → Option (List Char)
  | '.' :: r => some r
  | _ => none

/-- The part of the filename pattern after the `Matrix_v` header:
`(\d+)\.(\d+)\.xlsx` with `re.match` semantics (prefix match). -/
def matchTail (cs : List Char) : Option (Nat × Nat) :=
  if cs.takeWhile Char.isDigit = [] then none
  else
    (expectDot (cs.dropWhile Char.isDigit)).bind fun r2 =>
      if r2.takeWhile Char.isDigit = [] then none
      else if ".xlsx".toList.isPrefixOf (r2.dropWhile Char.isDigit) then
        some (digitsToNat (cs.takeWhile Char.isDigit), digitsToNat (r2.takeWhile Char.isDigit))
      else none

/-- `re.match(EXCEL_FILE_PATTERN, ·)` on a character list. -/
def matchChars : List Char → Option (Nat × Nat)
  | 'M' :: 'a' :: 't' :: 'r' :: 'i' :: 'x' :: '_' :: 'v' :: rest => matchTail rest
  | _ => none

def matchMatrixName (s : String) : Option (Nat × Nat) := matchChars s.toList

/-- `re.match(f"{OUTPUT_DIR}/{EXCEL_FILE_PATTERN}", ·)`: the same pattern
preceded by the literal `Flow_Matrix/`. -/
def matchPathChars : List Char → Option (Nat × Nat)
  | 'F' :: 'l' :: 'o' :: 'w' :: '_' :: 'M' :: 'a' :: 't' :: 'r' :: 'i' :: 'x' :: '/' :: rest =>
    matchChars rest
  | _ => none

/-- Sort key of `get_latest_matrix`: the `(major, minor)` tuple, compared
lexicographically as Python compares tuples.  Only applied to filenames that
matched the pattern, so the default is never consulted. -/
def versionKey (f : String) : Lex (Nat × Nat) :=
  toLex ((matchMatrixName f).getD (0, 0))

/-- `get_latest_matrix()` (lines 50–70) on the directory listing: keep the
matching filenames, sort by version key descending (stable), return the first
with the directory prepended; `None` when nothing matches. -/
def get_latest_matrix (files : List String) : Option String :=
  match stableSortDesc versionKey (files.filter (fun f => (matchMatrixName f).isSome)) with
  | [] => none
  | f :: _ => some ("Flow_Matrix/" ++ f)

/-- `next_version(filename)` (lines 72–88). -/
def next_version (filename : String) : String :=
  match matchPathChars filename.toList with
  | some p => "Matrix_v" ++ natRepr p.1 ++ "." ++ natRepr (p.2 + 1) ++ ".xlsx"
  | none => "Matrix_v1.0.xlsx"

/-- Lines 164–170: path of the matrix the run will write. -/
def new_excel_name (files : List String) : String :=
  match get_latest_matrix files with
  | some f => "Flow_Matrix/" ++ next_version f
  | none => "Flow_Matrix/Matrix_v1.0.xlsx"

/-- The version pair encoded in the produced path, read back with the same
pattern the scripts use. -/
def producedVersion (files : List String) : Option (Nat × Nat) :=
  matchPathChars (new_excel_name files).toList

/-! ### Lemmas about the stable descending sort -/

theorem mem_insStable {α β : Type} [LinearOrder β] (k : α → β) (x a : α) :
    ∀ l : List α, (a ∈ insStable k x l ↔ a = x ∨ a ∈ l) := by
  intro l
  induction l with
  | nil => simp [insStable]
  | cons y ys ih =>
    by_cases h : k x ≤ k y
    · simp only [insStable, if_pos h, List.mem_cons, ih]
      tauto
    · simp only [insStable, if_neg h, List.mem_cons]

theorem sorted_insStable {α β : Type} [LinearOrder β] (k : α → β) (x : α) :
    ∀ {l : List α}, SortedDesc k l → SortedDesc k (insStable k x l) := by
  intro l
  induction l with
  | nil => intro _; simp [insStable, SortedDesc]
  | cons y ys ih =>
    intro hl
    rw [SortedDesc, List.pairwise_cons] at hl
    obtain ⟨hy, hys⟩ := hl
    by_cases h : k x ≤ k y
    · rw [insStable, if_pos h, SortedDesc, List.pairwise_cons]
      refine ⟨?_, ih hys⟩
      intro a ha
      rcases (mem_insStable k x a ys).1 ha with rfl | ha
      · exact h
      · exact hy a ha
    · rw [insStable, if_neg h, SortedDesc, List.pairwise_cons]
      refine ⟨?_, List.pairwise_cons.2 ⟨hy, hys⟩⟩
      intro a ha
      rcases List.mem_cons.1 ha with rfl | ha
      · exact le_of_not_le h
      · exact le_trans (hy a ha) (le_of_not_le h)

theorem mem_sortFold {α β : Type} [LinearOrder β] (k : α → β) (a : α) :
    ∀ (l acc : List α),
      (a ∈ List.foldl (fun acc z => insStable k z acc) acc l ↔ a ∈ acc ∨ a ∈ l) := by
  intro l
  induction l with
  | nil => simp
  | cons y ys ih =>
    intro acc
    rw [List.foldl_cons, ih, mem_insStable]
    simp only [List.mem_cons]
    tauto

theorem mem_stableSortDesc {α β : Type} [LinearOrder β] (k : α → β) (a : α) (l : List α) :
    a ∈ stableSortDesc k l ↔ a ∈ l := by
  rw [stableSortDesc, mem_sortFold]
  simp

theorem sorted_sortFold {α β : Type} [LinearOrder β] (k : α → β) :
    ∀ (l acc : List α), SortedDesc k acc →
      SortedDesc k (List.foldl (fun acc z => insStable k z acc) acc l) := by
  intro l
  induction l with
  | nil => intro acc h; exact h
  | cons y ys ih =>
    intro acc h
    rw [List.foldl_cons]
    exact ih _ (sorted_insStable k y h)

theorem sorted_stableSortDesc {α β : Type} [LinearOrder β] (k : α → β) (l : List α) :
    SortedDesc k (stableSortDesc k l) :=
  sorted_sortFold k l [] (by simp [SortedDesc])

theorem find?_first {α : Type} {q : α → Bool} :
    ∀ {l1 : List α} {x : α} (l2 : List α), (∀ z ∈ l1, q z = false) → q x = true →
      (l1 ++ x :: l2).find? q = some x := by
  intro l1
  induction l1 with
  | nil => intro x l2 _ hx; simp [List.find?_cons_of_pos, hx]
  | cons y ys ih =>
    intro x l2 h1 hx
    have hy : q y = false := h1 y (by simp)
    rw [List.cons_append, List.find?_cons_of_neg _ (by simp [hy])]
    exact ih l2 (fun z hz => h1 z (by simp [hz])) hx

theorem find?_sorted_max {α β : Type} [LinearOrder β] {k : α → β} {q : α → Bool} :
    ∀ {l : List α} {x : α}, SortedDesc k l → l.find? q = some x →
      q x = true ∧ x ∈ l ∧ ∀ y ∈ l, q y = true → k y ≤ k x := by
  intro l
  induction l with
  | nil => intro x _ h; simp at h
  | cons y ys ih =>
    intro x hl h
    rw [SortedDesc, List.pairwise_cons] at hl
    obtain ⟨hy, hys⟩ := hl
    by_cases hqy : q y = true
    · rw [List.find?_cons_of_pos _ hqy] at h
      injection h with h
      subst h
      refine ⟨hqy, by simp, ?_⟩
      intro z hz _
      rcases List.mem_cons.1 hz with rfl | hz
      · exact le_refl _
      · exact hy z hz
    · have hqy' : q y = false := by simpa using hqy
      rw [List.find?_cons_of_neg _ (by simp [hqy'])] at h
      obtain ⟨h1, h2, h3⟩ := ih hys h
      refine ⟨h1, by simp [h2], ?_⟩
      intro z hz hqz
      rcases List.mem_cons.1 hz with rfl | hz
      · rw [hqy'] at hqz; cases hqz
      · exact h3 z hz hqz

theorem insStable_skip {α β : Type} [LinearOrder β] (k : α → β) (z : α) :
    ∀ (l1 rest : List α), (∀ y ∈ l1, k z ≤ k y) →
      insStable k z (l1 ++ rest) = l1 ++ insStable k z rest := by
  intro l1
  induction l1 with
  | nil => intro rest _; rfl
  | cons y ys ih =>
    intro rest h
    have hy : k z ≤ k y := h y (by simp)
    rw [List.cons_append, insStable, if_pos hy, ih rest (fun w hw => h w (by simp [hw])),
      List.cons_append]

theorem insStable_before {α β : Type} [LinearOrder β] (k : α → β) (z x : α)
    (hzx : ¬ k z ≤ k x) :
    ∀ (l1 l2 : List α), (∀ y ∈ l1, k x ≤ k y) →
      ∃ l1', insStable k z (l1 ++ x :: l2) = l1' ++ x :: l2 ∧
        ∀ w ∈ l1', w = z ∨ w ∈ l1 := by
  intro l1
  induction l1 with
  | nil =>
    intro l2 _
    refine ⟨[z], ?_, by simp⟩
    rw [List.nil_append, insStable, if_neg hzx]
    rfl
  | cons y ys ih =>
    intro l2 h
    by_cases hzy : k z ≤ k y
    · obtain ⟨l1', heq, hmem⟩ := ih l2 (fun w hw => h w (by simp [hw]))
      refine ⟨y :: l1', ?_, ?_⟩
      · rw [List.cons_append, insStable, if_pos hzy, heq, List.cons_append]
      · intro w hw
        rcases List.mem_cons.1 hw with rfl | hw
        · right; simp
        · rcases hmem w hw with rfl | hw
          · left; rfl
          · right; simp [hw]
    · refine ⟨z :: y :: ys, ?_, ?_⟩
      · rw [List.cons_append, insStable, if_neg hzy, List.cons_append, List.cons_append]
      · intro w hw
        rcases List.mem_cons.1 hw with rfl | hw
        · left; rfl
        · right; exact hw

theorem goodAcc_insStable {α β : Type} [LinearOrder β] (k : α → β) (q : α → Bool)
    (x z : α) {acc : List α} (hz : q z = true → k z ≤ k x)
    (hacc : GoodAcc k q x acc) : GoodAcc k q x (insStable k z acc) := by
  obtain ⟨hs, l1, l2, rfl, hl1⟩ := hacc
  by_cases hle : k z ≤ k x
  · have heq := insStable_skip k z l1 (x :: l2)
      (fun y hy => le_trans hle (hl1 y hy).2)
    refine ⟨sorted_insStable k z hs, l1, insStable k z l2, ?_, hl1⟩
    rw [heq, insStable, if_pos hle]
  · obtain ⟨l1', heq, hmem⟩ := insStable_before k z x hle l1 l2 (fun y hy => (hl1 y hy).2)
    refine ⟨sorted_insStable k z hs, l1', l2, heq, ?_⟩
    intro w hw
    rcases hmem w hw with rfl | hw
    · refine ⟨?_, le_of_not_le hle⟩
      cases hq : q w
      · rfl
      · exact absurd (hz hq) hle
    · exact hl1 w hw

theorem goodAcc_foldl {α β : Type} [LinearOrder β] (k : α → β) (q : α → Bool) (x : α) :
    ∀ (l : List α) (acc : List α), (∀ z ∈ l, q z = true → k z ≤ k x) →
      GoodAcc k q x acc →
      GoodAcc k q x (List.foldl (fun acc z => insStable k z acc) acc l) := by
  intro l
  induction l with
  | nil => intro acc _ h; exact h
  | cons z zs ih =>
    intro acc hl h
    rw [List.foldl_cons]
    exact ih _ (fun w hw => hl w (by simp [hw]))
      (goodAcc_insStable k q x z (hl z (by simp)) h)

theorem insStable_eq_take_drop {α β : Type} [LinearOrder β] (k : α → β) (x : α) :
    ∀ l : List α,
      insStable k x l = l.takeWhile (fun y => decide (k x ≤ k y)) ++
        x :: l.dropWhile (fun y => decide (k x ≤ k y)) := by
  intro l
  induction l with
  | nil => rfl
  | cons y ys ih =>
    by_cases h : k x ≤ k y
    · rw [insStable, if_pos h, List.takeWhile_cons, List.dropWhile_cons]
      simp only [decide_eq_true h, ih]
      rfl
    · rw [insStable, if_neg h, List.takeWhile_cons, List.dropWhile_cons]
      simp only [decide_eq_false h]
      rfl

theorem mem_takeWhile_pred {α : Type} {p : α → Bool} :
    ∀ {l : List α} {a : α}, a ∈ l.takeWhile p → p a = true ∧ a ∈ l := by
  intro l
  induction l with
  | nil => intro a h; simp [List.takeWhile] at h
  | cons y ys ih =>
    intro a h
    rw [List.takeWhile_cons] at h
    by_cases hy : p y = true
    · rw [if_pos hy] at h
      rcases List.mem_cons.1 h with rfl | h
      · exact ⟨hy, by simp⟩
      · obtain ⟨h1, h2⟩ := ih h
        exact ⟨h1, by simp [h2]⟩
    · rw [if_neg hy] at h
      simp at h

theorem goodAcc_base {α β : Type} [LinearOrder β] (k : α → β) (q : α → Bool) (x : α)
    (pre : List α) (hpre : ∀ z ∈ pre, q z = true → k z < k x) :
    GoodAcc k q x (insStable k x (stableSortDesc k pre)) := by
  refine ⟨sorted_insStable k x (sorted_stableSortDesc k pre), _, _,
    insStable_eq_take_drop k x (stableSortDesc k pre), ?_⟩
  intro z hz
  obtain ⟨hpz, hmem⟩ := mem_takeWhile_pred hz
  have hzpre : z ∈ pre := (mem_stableSortDesc k z pre).1 hmem
  have hxz : k x ≤ k z := of_decide_eq_true hpz
  refine ⟨?_, hxz⟩
  cases hq : q z
  · rfl
  · exact absurd (hpre z hzpre hq) (not_lt.2 hxz)

/-- `find?` after the stable descending sort of `pre ++ x :: post` returns `x`
when `x` matches, nothing after it matches with a strictly larger key, and
nothing before it matches with a key ≥ its own. -/
theorem find?_stableSortDesc {α β : Type} [LinearOrder β] (k : α → β) (q : α → Bool)
    (pre post : List α) (x : α) (hqx : q x = true)
    (hpost : ∀ z ∈ post, q z = true → k z ≤ k x)
    (hpre : ∀ z ∈ pre, q z = true → k z < k x) :
    (stableSortDesc k (pre ++ x :: post)).find? q = some x := by
  have hgood : GoodAcc k q x (stableSortDesc k (pre ++ x :: post)) := by
    rw [stableSortDesc, List.foldl_append, List.foldl_cons]
    exact goodAcc_foldl k q x post _ hpost (goodAcc_base k q x pre hpre)
  obtain ⟨_, l1, l2, heq, hl1⟩ := hgood
  rw [heq]
  exact find?_first l2 (fun z hz => (hl1 z hz).1) hqx

/-! ### Claims about zone and route resolution -/

/-- Membership in the annotated route list determines membership and the
annotation key. -/
theorem mem_filterMap_annot1 {l : List RouteEntry} {z : RouteEntry × Nat}
    (h : z ∈ l.filterMap annot1) : z.1 ∈ l ∧ annotKey z.1 = some z.2 := by
  obtain ⟨r0, hr0, hann⟩ := List.mem_filterMap.1 h
  unfold annot1 at hann
  cases hk : annotKey r0 with
  | none => rw [hk] at hann; simp at hann
  | some p0 =>
    rw [hk] at hann
    simp only [Option.map_some'] at hann
    injection hann with hann
    subst hann
    exact ⟨hr0, hk⟩

/-- Claim C3: zone resolution is a linear scan in table order that returns the
first entry whose network contains the address, regardless of any more
specific entry later in the table. -/
theorem c3_zone_first_match (ip : String) (a : Nat) (pre post : List ZoneEntry)
    (e : ZoneEntry) (hp : parseIPv4 ip = some a)
    (hpre : ∀ x ∈ pre, inNetwork a x.network = false)
    (he : inNetwork a e.network = true) :
    ip_to_zone ip (pre ++ e :: post) = some e.zone := by
  unfold ip_to_zone
  rw [hp]
  show Option.map ZoneEntry.zone
    ((pre ++ e :: post).find? fun x => inNetwork a x.network) = some e.zone
  rw [find?_first post hpre he]
  rfl

/-- Claim C3, witness: with table [(10.0.0.0/8, ZoneA), (10.1.0.0/16, ZoneB)]
the address 10.1.2.3 lies in both networks and resolves to ZoneA, the first in
table order, although ZoneB's network is more specific. -/
theorem c3_zone_first_match_witness :
    parseIPv4 "10.1.2.3" = some 167838211 ∧
    inNetwork 167838211 (Network.mk 167772160 8) = true ∧
    inNetwork 167838211 (Network.mk 167837696 16) = true ∧
    ip_to_zone "10.1.2.3"
      [⟨⟨167772160, 8⟩, "ZoneA", "Prod"⟩, ⟨⟨167837696, 16⟩, "ZoneB", "Admin"⟩]
      = some "ZoneA" :=
  ⟨by decide, by decide, by decide,
    c3_zone_first_match "10.1.2.3" 167838211 [] [⟨⟨167837696, 16⟩, "ZoneB", "Admin"⟩]
      ⟨⟨167772160, 8⟩, "ZoneA", "Prod"⟩ (by decide) (by decide) (by decide)⟩

/-- Claim C4: whenever route matching returns an entry, that entry contains
the destination and carries the longest prefix length among all (well-formed)
containing entries of the table; in particular the default route (length 0)
never beats a more specific containing route, wherever it sits. -/
theorem c4_route_longest_pfx (dest : String) (a : Nat) (routes : List RouteEntry)
    (r : RouteEntry) (hp : parseIPv4 dest = some a)
    (hf : find_matching_route dest routes = some r) :
    ∃ p, annotKey r = some p ∧ scanMatch a r = true ∧ r ∈ routes ∧
      ∀ r' ∈ routes, scanMatch a r' = true → (annotKey r').getD 0 ≤ p := by
  unfold find_matching_route at hf
  rw [hp] at hf
  have hf2 : Option.map Prod.fst ((stableSortDesc Prod.snd (routes.filterMap annot1)).find?
      (fun pr => scanMatch a pr.1)) = some r := hf
  cases hfind : (stableSortDesc Prod.snd (routes.filterMap annot1)).find?
      (fun pr => scanMatch a pr.1) with
  | none => rw [hfind] at hf2; simp at hf2
  | some pr =>
    rw [hfind] at hf2
    simp only [Option.map_some'] at hf2
    injection hf2 with hf2
    obtain ⟨hq, hmem, hmax⟩ :=
      find?_sorted_max (sorted_stableSortDesc Prod.snd (routes.filterMap annot1)) hfind
    have hmem' : pr ∈ routes.filterMap annot1 := (mem_stableSortDesc _ _ _).1 hmem
    obtain ⟨hr0, hk0⟩ := mem_filterMap_annot1 hmem'
    refine ⟨pr.2, by rw [← hf2]; exact hk0, by rw [← hf2]; exact hq, by rw [← hf2]; exact hr0, ?_⟩
    intro r' hr' hq'
    cases hk' : annotKey r' with
    | none => simp
    | some p' =>
      have hz : (r', p') ∈ routes.filterMap annot1 :=
        List.mem_filterMap.2 ⟨r', hr', by simp [annot1, hk']⟩
      have hzs : (r', p') ∈ stableSortDesc Prod.snd (routes.filterMap annot1) :=
        (mem_stableSortDesc _ _ _).2 hz
      have := hmax (r', p') hzs (by simpa using hq')
      simpa using this

/-- Claim C4, witness: with routes [(0.0.0.0/0, gw 9.9.9.9),
(192.168.1.0/24, gw 10.0.0.1)] the destination 192.168.1.5 selects the /24
route although the default route comes first, and the computed next hop for a
source outside that subnet is 10.0.0.1. -/
theorem c4_route_longest_pfx_witness :
    parseIPv4 "192.168.1.5" = some 3232235781 ∧
    (∃ p, annotKey ⟨"192.168.1.0/24", some "10.0.0.1"⟩ = some p ∧
      scanMatch 3232235781 ⟨"192.168.1.0/24", some "10.0.0.1"⟩ = true ∧
      (⟨"192.168.1.0/24", some "10.0.0.1"⟩ : RouteEntry) ∈
        [⟨"0.0.0.0/0", some "9.9.9.9"⟩, ⟨"192.168.1.0/24", some "10.0.0.1"⟩] ∧
      ∀ r' ∈ ([⟨"0.0.0.0/0", some "9.9.9.9"⟩, ⟨"192.168.1.0/24", some "10.0.0.1"⟩] :
          List RouteEntry), scanMatch 3232235781 r' = true → (annotKey r').getD 0 ≤ p) ∧
    calculate_next_hop "10.99.0.5" "192.168.1.5"
      [⟨"0.0.0.0/0", some "9.9.9.9"⟩, ⟨"192.168.1.0/24", some "10.0.0.1"⟩] = "10.0.0.1" :=
  ⟨by decide,
    c4_route_longest_pfx "192.168.1.5" 3232235781
      [⟨"0.0.0.0/0", some "9.9.9.9"⟩, ⟨"192.168.1.0/24", some "10.0.0.1"⟩]
      ⟨"192.168.1.0/24", some "10.0.0.1"⟩ (by decide) (by decide),
    by decide⟩

/-- Claim C10: among containing entries that share the (maximal) prefix
length, the one earliest in the table wins: the specificity sort is stable and
the scan takes the first containing entry. -/
theorem c10_route_tie_first (dest : String) (a : Nat) (pre post : List RouteEntry)
    (r : RouteEntry) (p : Nat)
    (hp : parseIPv4 dest = some a)
    (hk : annotKey r = some p)
    (hm : scanMatch a r = true)
    (hmax : ∀ r' ∈ pre ++ r :: post, scanMatch a r' = true → (annotKey r').getD 0 ≤ p)
    (hfirst : ∀ r' ∈ pre, scanMatch a r' = true → (annotKey r').getD 0 < p) :
    find_matching_route dest (pre ++ r :: post) = some r := by
  unfold find_matching_route
  rw [hp]
  have hsplit : (pre ++ r :: post).filterMap annot1
      = pre.filterMap annot1 ++ (r, p) :: post.filterMap annot1 := by
    rw [List.filterMap_append, List.filterMap_cons]
    simp [annot1, hk]
  have hpost : ∀ z ∈ post.filterMap annot1,
      (fun pr => scanMatch a pr.1) z = true → z.2 ≤ (r, p).2 := by
    intro z hz hq
    obtain ⟨hz1, hz2⟩ := mem_filterMap_annot1 hz
    have := hmax z.1 (by simp [hz1]) hq
    rw [hz2] at this
    simpa using this
  have hpre2 : ∀ z ∈ pre.filterMap annot1,
      (fun pr => scanMatch a pr.1) z = true → Prod.snd z < Prod.snd (r, p) := by
    intro z hz hq
    obtain ⟨hz1, hz2⟩ := mem_filterMap_annot1 hz
    have := hfirst z.1 hz1 hq
    rw [hz2] at this
    simpa using this
  show Option.map Prod.fst
      ((stableSortDesc Prod.snd ((pre ++ r :: post).filterMap annot1)).find?
        fun pr => scanMatch a pr.1) = some r
  rw [hsplit, find?_stableSortDesc Prod.snd (fun pr => scanMatch a pr.1)
    (pre.filterMap annot1) (post.filterMap annot1) (r, p) hm hpost hpre2]
  rfl

/-- Claim C10, witness: two /24 routes both containing 192.168.1.5, preceded
by a containing default route; the earlier /24 (gateway 10.0.0.1) wins over
the later one (gateway 8.8.8.8). -/
theorem c10_route_tie_first_witness :
    parseIPv4 "192.168.1.5" = some 3232235781 ∧
    annotKey ⟨"192.168.1.0/24", some "10.0.0.1"⟩ = some 24 ∧
    scanMatch 3232235781 ⟨"192.168.1.0/24", some "8.8.8.8"⟩ = true ∧
    find_matching_route "192.168.1.5"
      [⟨"0.0.0.0/0", some "9.9.9.9"⟩, ⟨"192.168.1.0/24", some "10.0.0.1"⟩,
        ⟨"192.168.1.0/24", some "8.8.8.8"⟩]
      = some ⟨"192.168.1.0/24", some "10.0.0.1"⟩ :=
  ⟨by decide, by decide, by decide,
    c10_route_tie_first "192.168.1.5" 3232235781 [⟨"0.0.0.0/0", some "9.9.9.9"⟩]
      [⟨"192.168.1.0/24", some "8.8.8.8"⟩] ⟨"192.168.1.0/24", some "10.0.0.1"⟩ 24
      (by decide) (by decide) (by decide) (by decide) (by decide)⟩

/-- Claim C8: when the destination lies in the /24 network formed from the
source address (the fixed local mask), the result is DIRECT for every route
table. -/
theorem c8_same_subnet_direct (src dst : String) (s d : Nat) (routes : List RouteEntry)
    (hs : parseIPv4 src = some s) (hd : parseIPv4 dst = some d)
    (hin : inNetwork d ⟨s, 24⟩ = true) :
    calculate_next_hop src dst routes = "DIRECT" := by
  have h : is_same_network src dst 24 = true := by
    unfold is_same_network
    rw [hs, hd]
    exact hin
  simp [calculate_next_hop, h]

/-- Claim C8, witness: 192.168.1.10 → 192.168.1.20 is DIRECT even though the
table holds a /32 route to the destination via a gateway. -/
theorem c8_same_subnet_direct_witness :
    parseIPv4 "192.168.1.10" = some 3232235786 ∧
    inNetwork 3232235796 (Network.mk 3232235786 24) = true ∧
    calculate_next_hop "192.168.1.10" "192.168.1.20"
      [⟨"192.168.1.20/32", some "7.7.7.7"⟩] = "DIRECT" :=
  ⟨by decide, by decide,
    c8_same_subnet_direct "192.168.1.10" "192.168.1.20" 3232235786 3232235796
      [⟨"192.168.1.20/32", some "7.7.7.7"⟩] (by decide) (by decide) (by decide)⟩

/-! ### Claims about reconciliation: merge, removal, enrichment -/

/-- A frame indexed by integer positions never aligns with a FlowKey label. -/
theorem find?_pos_none (other : List (Idx × Row)) (k : FlowKey)
    (hother : ∀ q ∈ other, ∃ n, q.1 = Idx.pos n) :
    other.find? (fun q => q.1 == Idx.key k) = none := by
  induction other with
  | nil => rfl
  | cons y ys ih =>
    obtain ⟨n, hn⟩ := hother y (by simp)
    rw [List.find?_cons_of_neg _ (by rw [hn]; simp), ih (fun q hq => hother q (by simp [hq]))]

/-- `df_excel.update(df_csv)` with the FlowKey index on one side and the
integer `RangeIndex` on the other touches nothing. -/
theorem dfUpdate_noAlign (self other : List (Idx × Row))
    (hself : ∀ p ∈ self, ∃ k, p.1 = Idx.key k)
    (hother : ∀ q ∈ other, ∃ n, q.1 = Idx.pos n) :
    dfUpdate self other = self := by
  induction self with
  | nil => rfl
  | cons p ps ih =>
    obtain ⟨k, hk⟩ := hself p (by simp)
    unfold dfUpdate
    rw [List.map_cons, hk, find?_pos_none other k hother]
    have := ih (fun q hq => hself q (by simp [hq]))
    unfold dfUpdate at this
    rw [this]

/-- What the merge step of the source actually computes: the previous rows
unchanged, followed by the incoming rows whose key is new. -/
theorem mergeStep_eq (prev inc : List Row) :
    mergeStep prev inc
      = prev ++ inc.filter (fun r => decide (keyOf r ∉ prev.map keyOf)) := by
  show (dfUpdate (prev.map (fun r => (Idx.key (keyOf r), r)))
      (((List.range inc.length).zip inc).map (fun p => (Idx.pos p.1, p.2)))).map Prod.snd
      ++ inc.filter (fun r => decide (keyOf r ∉ prev.map keyOf))
      = prev ++ inc.filter (fun r => decide (keyOf r ∉ prev.map keyOf))
  rw [dfUpdate_noAlign _ _ ?h1 ?h2, List.map_map]
  · have hid : (Prod.snd ∘ fun r : Row => (Idx.key (keyOf r), r)) = id := by
      funext r
      rfl
    rw [hid, List.map_id]
  case h1 =>
    intro p hp
    obtain ⟨r, _, rfl⟩ := List.mem_map.1 hp
    exact ⟨keyOf r, rfl⟩
  case h2 =>
    intro q hq
    obtain ⟨p, _, rfl⟩ := List.mem_map.1 hq
    exact ⟨p.1, rfl⟩

/-- Claim C1 (code bug): a previous row and an incoming row with the same
FlowKey but different field values; the merged result keeps the prior values,
because `df_csv.set_index(KEY_COLUMNS, inplace=False)` discards its result and
`df_excel.update(df_csv)` therefore aligns FlowKey labels against the
incoming frame's integer index and overwrites nothing.  The incoming values
were supposed to win. -/
theorem c1_update_is_noop :
    keyOf (⟨"10.0.0.1", some "Z1", "10.0.0.2", some "Z2", "443", "tcp", "autoriser",
        "new description"⟩ : Row)
      = keyOf (⟨"10.0.0.1", some "Z1", "10.0.0.2", some "Z2", "443", "tcp", "autoriser",
        "old description"⟩ : Row) ∧
    (⟨"10.0.0.1", some "Z1", "10.0.0.2", some "Z2", "443", "tcp", "autoriser",
        "new description"⟩ : Row).desc
      ≠ (⟨"10.0.0.1", some "Z1", "10.0.0.2", some "Z2", "443", "tcp", "autoriser",
        "old description"⟩ : Row).desc ∧
    mergedResult
      [⟨"10.0.0.1", some "Z1", "10.0.0.2", some "Z2", "443", "tcp", "autoriser",
        "old description"⟩]
      [⟨"10.0.0.1", some "Z1", "10.0.0.2", some "Z2", "443", "tcp", "autoriser",
        "new description"⟩]
      = [⟨"10.0.0.1", some "Z1", "10.0.0.2", some "Z2", "443", "tcp", "autoriser",
        "old description"⟩] := by
  decide

/-- Claim C6: a removal marker (case-insensitive `supprimer` action) for a key
eliminates every record with that key from the merged result, including the
update the same batch carries for it: the removal filter runs after the
update/append step. -/
theorem c6_removal_priority (prev inc : List Row) (k : FlowKey)
    (h : ∃ r ∈ inc, isRemove r = true ∧ keyOf r = k) :
    ∀ s ∈ mergedResult prev inc, keyOf s ≠ k := by
  obtain ⟨r, hr, hrem, hkey⟩ := h
  intro s hs hk
  simp only [mergedResult, removeStep, List.mem_filter] at hs
  obtain ⟨-, hsf⟩ := hs
  have hmem : keyOf s ∈ (inc.filter isRemove).map keyOf := by
    rw [hk, ← hkey]
    exact List.mem_map_of_mem _ (List.mem_filter.2 ⟨hr, hrem⟩)
  exact (of_decide_eq_true hsf) hmem

/-- Claim C6, witness: the batch updates and removes the same key
(`Supprimer` in mixed case); the merged result holds no record with that
key. -/
theorem c6_removal_priority_witness :
    (∃ r ∈ [(⟨"10.0.0.1", some "Z", "10.0.0.9", some "Z", "22", "tcp", "autoriser",
          "updated"⟩ : Row),
        ⟨"10.0.0.1", some "Z", "10.0.0.9", some "Z", "22", "tcp", "Supprimer", ""⟩],
      isRemove r = true ∧ keyOf r = ("10.0.0.1", "10.0.0.9", "22", "tcp")) ∧
    ∀ s ∈ mergedResult
      [⟨"10.0.0.1", some "Z", "10.0.0.9", some "Z", "22", "tcp", "autoriser", "old"⟩]
      [⟨"10.0.0.1", some "Z", "10.0.0.9", some "Z", "22", "tcp", "autoriser", "updated"⟩,
        ⟨"10.0.0.1", some "Z", "10.0.0.9", some "Z", "22", "tcp", "Supprimer", ""⟩],
      keyOf s ≠ ("10.0.0.1", "10.0.0.9", "22", "tcp") :=
  ⟨by decide, c6_removal_priority _ _ _ (by decide)⟩

/-- Claim C7 (counterexample): in the reconciliation path a record whose
source address does not parse passes through enrichment silently — it stays in
the batch with an absent (`None`) zone; no error is raised. -/
theorem c7_counterexample :
    (enrichZones [⟨"badip", none, "10.0.0.2", none, "443", "tcp", "autoriser", ""⟩]
        [⟨⟨167772160, 8⟩, "ZoneA", "Prod"⟩]).length = 1 ∧
    (enrichZones [⟨"badip", none, "10.0.0.2", none, "443", "tcp", "autoriser", ""⟩]
        [⟨⟨167772160, 8⟩, "ZoneA", "Prod"⟩]).map Row.zone_source = [none] := by
  decide

/-- Claim C7 (amended): in the reconciliation path (`UpdateMatrix.py`) a
record whose source fails zone resolution passes through with `None` in its
zone column; a hard per-record error on failed resolution happens only in the
population path (`DataPopulation.py`), where the failed lookup is
subscripted. -/
theorem c7_silent_in_reconciliation (r : Row) (f : InFlow) (tbl : List ZoneEntry)
    (hr : ip_to_zone r.source tbl = none)
    (hf : ip_to_zone_dp f.source_ip tbl = none) :
    enrichZones [r] tbl
      = [{ r with zone_source := none, zone_destination := ip_to_zone r.destination tbl }] ∧
    dataPopulation f tbl = none := by
  constructor
  · simp [enrichZones, hr]
  · simp [dataPopulation, hf]

/-- Claim C7, witness: the unparseable address 999.1.1.1 gives a zone-less
record in the reconciliation path and an error (`none`) in the population
path. -/
theorem c7_silent_in_reconciliation_witness :
    ip_to_zone "999.1.1.1" [⟨⟨167772160, 8⟩, "ZoneA", "Prod"⟩] = none ∧
    enrichZones [⟨"999.1.1.1", none, "10.0.0.2", none, "443", "tcp", "autoriser", ""⟩]
        [⟨⟨167772160, 8⟩, "ZoneA", "Prod"⟩]
      = [⟨"999.1.1.1", none, "10.0.0.2", some "ZoneA", "443", "tcp", "autoriser", ""⟩] ∧
    dataPopulation ⟨"srv", "999.1.1.1", "dst", "10.0.0.2"⟩
        [⟨⟨167772160, 8⟩, "ZoneA", "Prod"⟩] = none :=
  ⟨by decide,
    by
      have h := c7_silent_in_reconciliation
        ⟨"999.1.1.1", none, "10.0.0.2", none, "443", "tcp", "autoriser", ""⟩
        ⟨"srv", "999.1.1.1", "dst", "10.0.0.2"⟩
        [⟨⟨167772160, 8⟩, "ZoneA", "Prod"⟩] (by decide) (by decide)
      rw [h.1]
      decide,
    (c7_silent_in_reconciliation
        ⟨"999.1.1.1", none, "10.0.0.2", none, "443", "tcp", "autoriser", ""⟩
        ⟨"srv", "999.1.1.1", "dst", "10.0.0.2"⟩
        [⟨⟨167772160, 8⟩, "ZoneA", "Prod"⟩] (by decide) (by decide)).2⟩

/-! ### Claim C2: the catch-all rule and the ID column -/

theorem mem_assignIdsFrom : ∀ (n : Nat) (rows : List Row) (ir : IdRow),
    ir ∈ assignIdsFrom n rows → ir.row ∈ rows := by
  intro n rows
  induction rows generalizing n with
  | nil => intro ir h; simp [assignIdsFrom] at h
  | cons r rs ih =>
    intro ir h
    rw [assignIdsFrom] at h
    rcases List.mem_cons.1 h with rfl | h
    · simp
    · simp [ih (n + 1) ir h]

theorem ids_assignIdsFrom : ∀ (rows : List Row) (n : Nat),
    (assignIdsFrom n rows).map IdRow.id = List.range' n rows.length := by
  intro rows
  induction rows with
  | nil => intro n; rfl
  | cons r rs ih =>
    intro n
    rw [assignIdsFrom, List.map_cons, ih]
    rfl

theorem strip_filter_assign : ∀ (n : Nat) (rows : List Row),
    ((assignIdsFrom n rows).filter (fun ir => !(isBlockAllRow ir.row))).map IdRow.row
      = rows.filter (fun r => !(isBlockAllRow r)) := by
  intro n rows
  induction rows generalizing n with
  | nil => rfl
  | cons r rs ih =>
    rw [assignIdsFrom, List.filter_cons, List.filter_cons]
    by_cases h : isBlockAllRow r <;> simp [h, ih (n + 1)]

/-- A filter by `q` of a list already filtered by `!q` is empty. -/
theorem filter_pos_of_neg {α : Type} (q : α → Bool) (l : List α) :
    (l.filter (fun x => !(q x))).filter q = [] := by
  induction l with
  | nil => rfl
  | cons x xs ih =>
    rw [List.filter_cons]
    by_cases h : q x
    · simp [h, ih]
    · simp only [Bool.not_eq_true] at h
      simp [h, ih]

theorem range'_append_last : ∀ (n s : Nat), List.range' s n ++ [s + n] = List.range' s (n + 1) := by
  intro n
  induction n with
  | zero => intro s; simp [List.range']
  | succ m ih =>
    intro s
    have h1 : List.range' s (m + 1) = s :: List.range' (s + 1) m := rfl
    have h2 : List.range' s (m + 2) = s :: List.range' (s + 1) (m + 1) := rfl
    rw [h1, h2, List.cons_append, ← ih (s + 1)]
    congr 3
    omega

/-- The body of `reconcile` written without its local definitions. -/
theorem reconcile_eq (prev inc : List Row) :
    reconcile prev inc
      = (assignIds (mergedResult prev inc)).filter (fun ir => !(isBlockAllRow ir.row))
        ++ [⟨((assignIds (mergedResult prev inc)).filter
              (fun ir => !(isBlockAllRow ir.row))).length + 1, blockAllRow⟩] := rfl

/-- Claim C2 (amended): after every reconciliation exactly one row is the
catch-all (block/any/any), it is the last row, and its ID equals the total row
count.  The ID column as a whole, however, is only guaranteed to be the dense
sequence 1..n when the merged, removal-filtered table contains no catch-all
row (as on a first run): IDs are assigned before old catch-all rows are
dropped, so a dropped mid-table catch-all leaves a gap and a duplicate. -/
theorem c2_catchall_invariant (prev inc : List Row) :
    ((reconcile prev inc).filter (fun ir => isBlockAllRow ir.row)).length = 1 ∧
    (reconcile prev inc).getLast? = some ⟨(reconcile prev inc).length, blockAllRow⟩ ∧
    ((∀ r ∈ mergedResult prev inc, isBlockAllRow r = false) →
      (reconcile prev inc).map IdRow.id = List.range' 1 (reconcile prev inc).length) := by
  have hblk : isBlockAllRow blockAllRow = true := by decide
  refine ⟨?_, ?_, ?_⟩
  · rw [reconcile_eq, List.filter_append]
    have h1 : ((assignIds (mergedResult prev inc)).filter
        (fun ir => !(isBlockAllRow ir.row))).filter (fun ir => isBlockAllRow ir.row) = [] :=
      filter_pos_of_neg (fun ir : IdRow => isBlockAllRow ir.row) _
    rw [h1]
    simp [hblk]
  · rw [reconcile_eq]
    rw [List.getLast?_concat]
    congr 2
    simp
  · intro hA
    have hfull : (assignIds (mergedResult prev inc)).filter
        (fun ir => !(isBlockAllRow ir.row)) = assignIds (mergedResult prev inc) := by
      rw [List.filter_eq_self]
      intro ir hir
      have hm := mem_assignIdsFrom 1 (mergedResult prev inc) ir hir
      simp [hA ir.row hm]
    have hlen : (assignIds (mergedResult prev inc)).length
        = (mergedResult prev inc).length := by
      have h := congrArg List.length (ids_assignIdsFrom (mergedResult prev inc) 1)
      simpa [assignIds] using h
    have hids : (assignIds (mergedResult prev inc)).map IdRow.id
        = List.range' 1 (mergedResult prev inc).length :=
      ids_assignIdsFrom (mergedResult prev inc) 1
    rw [reconcile_eq, hfull]
    simp only [List.map_append, List.map_cons, List.map_nil, List.length_append,
      List.length_cons, List.length_nil, hlen, hids]
    have h2 := range'_append_last (mergedResult prev inc).length 1
    rw [Nat.add_comm 1 (mergedResult prev inc).length] at h2
    rw [← h2]

/-- Claim C2 (counterexample): a previous matrix holding a flow row and its
trailing catch-all, plus one genuinely new incoming flow.  The old catch-all
sits mid-table after the merge, IDs 1,2,3 are assigned, the catch-all (ID 2)
is dropped and the fresh one appended with ID 3 — final ID column [1, 3, 3]:
not a dense 1-based sequence. -/
theorem c2_counterexample :
    (reconcile
        [⟨"10.0.0.1", some "Z1", "10.0.0.2", some "Z2", "443", "tcp", "autoriser", ""⟩,
          blockAllRow]
        [⟨"10.0.0.3", some "Z1", "10.0.0.4", some "Z2", "80", "tcp", "autoriser", ""⟩]).map
      IdRow.id = [1, 3, 3] ∧
    ¬ ((reconcile
        [⟨"10.0.0.1", some "Z1", "10.0.0.2", some "Z2", "443", "tcp", "autoriser", ""⟩,
          blockAllRow]
        [⟨"10.0.0.3", some "Z1", "10.0.0.4", some "Z2", "80", "tcp", "autoriser", ""⟩]).map
      IdRow.id = List.range' 1 (reconcile
        [⟨"10.0.0.1", some "Z1", "10.0.0.2", some "Z2", "443", "tcp", "autoriser", ""⟩,
          blockAllRow]
        [⟨"10.0.0.3", some "Z1", "10.0.0.4", some "Z2", "80", "tcp", "autoriser", ""⟩]).length) := by
  decide

/-- Claim C2, witness: a first run (empty previous matrix); the invariants
hold and the ID column is the dense sequence 1..n. -/
theorem c2_catchall_invariant_witness :
    (∀ r ∈ mergedResult []
        [⟨"10.0.0.5", some "Z", "10.0.0.6", some "Z", "53", "udp", "autoriser", ""⟩],
      isBlockAllRow r = false) ∧
    ((reconcile []
        [⟨"10.0.0.5", some "Z", "10.0.0.6", some "Z", "53", "udp", "autoriser", ""⟩]).filter
      (fun ir => isBlockAllRow ir.row)).length = 1 ∧
    (reconcile []
        [⟨"10.0.0.5", some "Z", "10.0.0.6", some "Z", "53", "udp", "autoriser", ""⟩]).getLast?
      = some ⟨(reconcile []
          [⟨"10.0.0.5", some "Z", "10.0.0.6", some "Z", "53", "udp", "autoriser", ""⟩]).length,
        blockAllRow⟩ ∧
    (reconcile []
        [⟨"10.0.0.5", some "Z", "10.0.0.6", some "Z", "53", "udp", "autoriser", ""⟩]).map
      IdRow.id = List.range' 1 (reconcile []
        [⟨"10.0.0.5", some "Z", "10.0.0.6", some "Z", "53", "udp", "autoriser", ""⟩]).length :=
  ⟨by decide,
    (c2_catchall_invariant [] _).1,
    (c2_catchall_invariant [] _).2.1,
    (c2_catchall_invariant [] _).2.2 (by decide)⟩

/-! ### Claim C9: idempotence of reconciliation -/

theorem removeStep_no_removals (m inc : List Row) (h : ∀ r ∈ inc, isRemove r = false) :
    removeStep m inc = m := by
  have hf : inc.filter isRemove = [] := by
    rw [List.filter_eq_nil_iff]
    intro r hr
    simp [h r hr]
  simp [removeStep, hf]

/-- The persisted content of a reconciled matrix: the merged rows that are not
catch-alls, in order, followed by the fresh catch-all. -/
theorem stripIds_reconcile (p i : List Row) :
    stripIds (reconcile p i)
      = (mergedResult p i).filter (fun r => !(isBlockAllRow r)) ++ [blockAllRow] := by
  rw [reconcile_eq]
  simp only [stripIds, List.map_append, List.map_cons, List.map_nil, assignIds]
  rw [strip_filter_assign 1]

/-- Claim C9 (amended): for a batch without removal markers, re-running
reconciliation with the same batch against the first run's output reproduces
exactly the same row content (business keys and all fields; the positional
IDs may be renumbered and the version advances), provided every deny-all
(block/any/any) row of the previous matrix carries the full catch-all key —
which holds for the empty first-run matrix and for every matrix this
reconciliation produces. -/
theorem c9_idempotent (prev inc : List Row)
    (hprev : ∀ r ∈ prev, isBlockAllRow r = true → keyOf r = ("any", "any", "any", "any"))
    (hnorem : ∀ r ∈ inc, isRemove r = false) :
    stripIds (reconcile (stripIds (reconcile prev inc)) inc)
      = stripIds (reconcile prev inc) := by
  have hA : mergedResult prev inc
      = prev ++ inc.filter (fun r => decide (keyOf r ∉ prev.map keyOf)) := by
    unfold mergedResult
    rw [mergeStep_eq, removeStep_no_removals _ _ hnorem]
  set rows1 := (mergedResult prev inc).filter (fun r => !(isBlockAllRow r)) with hrows1
  set prev2 := rows1 ++ [blockAllRow] with hprev2
  have h1 : stripIds (reconcile prev inc) = prev2 := stripIds_reconcile prev inc
  have hA2 : mergedResult prev2 inc
      = prev2 ++ inc.filter (fun r => decide (keyOf r ∉ prev2.map keyOf)) := by
    unfold mergedResult
    rw [mergeStep_eq, removeStep_no_removals _ _ hnorem]
  have hkey : ∀ r ∈ inc.filter (fun r => decide (keyOf r ∉ prev2.map keyOf)),
      isBlockAllRow r = true := by
    intro r hr
    rw [List.mem_filter] at hr
    obtain ⟨hrinc, hrdec⟩ := hr
    have hnot : keyOf r ∉ prev2.map keyOf := of_decide_eq_true hrdec
    by_contra hb
    have hbf : isBlockAllRow r = false := by simpa using hb
    apply hnot
    rw [hprev2, List.map_append]
    by_cases hk : keyOf r ∈ prev.map keyOf
    · obtain ⟨p0, hp0, hp0k⟩ := List.mem_map.1 hk
      by_cases hbp : isBlockAllRow p0 = true
      · have hany := hprev p0 hp0 hbp
        apply List.mem_append_right
        have : keyOf r = keyOf blockAllRow := by
          rw [← hp0k, hany]
          decide
        simp [this]
      · have hbpf : isBlockAllRow p0 = false := by simpa using hbp
        have hp0A : p0 ∈ mergedResult prev inc := by
          rw [hA]
          exact List.mem_append_left _ hp0
        have hp0r : p0 ∈ rows1 := List.mem_filter.2 ⟨hp0A, by simp [hbpf]⟩
        apply List.mem_append_left
        rw [← hp0k]
        exact List.mem_map_of_mem keyOf hp0r
    · have hrA : r ∈ mergedResult prev inc := by
        rw [hA]
        exact List.mem_append_right _ (List.mem_filter.2 ⟨hrinc, by simpa using hk⟩)
      have hrr : r ∈ rows1 := List.mem_filter.2 ⟨hrA, by simp [hbf]⟩
      exact List.mem_append_left _ (List.mem_map_of_mem keyOf hrr)
  rw [h1, stripIds_reconcile prev2 inc, hA2, List.filter_append, List.filter_append]
  have e1 : rows1.filter (fun r => !(isBlockAllRow r)) = rows1 := by
    rw [hrows1, List.filter_filter]
    simp
  have e2 : ([blockAllRow] : List Row).filter (fun r => !(isBlockAllRow r)) = [] := by decide
  have e3 : (inc.filter (fun r => decide (keyOf r ∉ prev2.map keyOf))).filter
      (fun r => !(isBlockAllRow r)) = [] := by
    rw [List.filter_eq_nil_iff]
    intro r hr
    simp [hkey r hr]
  rw [e1, e2, e3]
  simp

/-- Claim C9 (counterexample): the previous matrix holds a deny row with key
(any, any, 80, tcp); the batch re-declares that key with an allow action and
no removal marker.  The first run drops the deny row (catch-all filter) and,
because the update step is a no-op, never absorbs the allow row, so its key is
absent from the first output; the second run re-appends it — the two runs'
business-key sets differ. -/
theorem c9_counterexample :
    (∀ r ∈ [(⟨"any", none, "any", none, "80", "tcp", "autoriser", ""⟩ : Row)],
      isRemove r = false) ∧
    ("any", "any", "80", "tcp") ∉
      (stripIds (reconcile [⟨"any", none, "any", none, "80", "tcp", "block", ""⟩]
        [⟨"any", none, "any", none, "80", "tcp", "autoriser", ""⟩])).map keyOf ∧
    ("any", "any", "80", "tcp") ∈
      (stripIds (reconcile
        (stripIds (reconcile [⟨"any", none, "any", none, "80", "tcp", "block", ""⟩]
          [⟨"any", none, "any", none, "80", "tcp", "autoriser", ""⟩]))
        [⟨"any", none, "any", none, "80", "tcp", "autoriser", ""⟩])).map keyOf := by
  decide

/-- Claim C9, witness: a well-formed previous matrix (one flow and its
trailing catch-all) and a batch with one updated and one new flow; the second
run reproduces the first run's content exactly. -/
theorem c9_idempotent_witness :
    (∀ r ∈ [(⟨"10.0.0.1", some "Z1", "10.0.0.2", some "Z2", "443", "tcp", "autoriser",
        "old"⟩ : Row), blockAllRow],
      isBlockAllRow r = true → keyOf r = ("any", "any", "any", "any")) ∧
    (∀ r ∈ [(⟨"10.0.0.1", some "Z1", "10.0.0.2", some "Z2", "443", "tcp", "autoriser",
        "new"⟩ : Row),
      ⟨"10.0.0.3", some "Z1", "10.0.0.4", some "Z2", "80", "tcp", "autoriser", ""⟩],
      isRemove r = false) ∧
    stripIds (reconcile
        (stripIds (reconcile
          [⟨"10.0.0.1", some "Z1", "10.0.0.2", some "Z2", "443", "tcp", "autoriser", "old"⟩,
            blockAllRow]
          [⟨"10.0.0.1", some "Z1", "10.0.0.2", some "Z2", "443", "tcp", "autoriser", "new"⟩,
            ⟨"10.0.0.3", some "Z1", "10.0.0.4", some "Z2", "80", "tcp", "autoriser", ""⟩]))
        [⟨"10.0.0.1", some "Z1", "10.0.0.2", some "Z2", "443", "tcp", "autoriser", "new"⟩,
          ⟨"10.0.0.3", some "Z1", "10.0.0.4", some "Z2", "80", "tcp", "autoriser", ""⟩])
      = stripIds (reconcile
        [⟨"10.0.0.1", some "Z1", "10.0.0.2", some "Z2", "443", "tcp", "autoriser", "old"⟩,
          blockAllRow]
        [⟨"10.0.0.1", some "Z1", "10.0.0.2", some "Z2", "443", "tcp", "autoriser", "new"⟩,
          ⟨"10.0.0.3", some "Z1", "10.0.0.4", some "Z2", "80", "tcp", "autoriser", ""⟩]) :=
  ⟨by decide, by decide, c9_idempotent _ _ (by decide) (by decide)⟩

/-! ### Claim C5: decimal printing round-trips through the filename pattern -/

theorem digitChar_isDigit (d : Nat) (h : d < 10) : (digitChar d).isDigit = true := by
  interval_cases d <;> decide

theorem digitChar_toNat (d : Nat) (h : d < 10) : (digitChar d).toNat = 48 + d := by
  interval_cases d <;> decide

theorem digitsToNat_append_digit (xs : List Char) (c : Char) :
    digitsToNat (xs ++ [c]) = digitsToNat xs * 10 + (c.toNat - 48) := by
  unfold digitsToNat
  rw [List.foldl_append]
  rfl

theorem natDigitsAux_spec : ∀ (fuel n : Nat), n < fuel →
    (∀ c ∈ natDigitsAux fuel n, c.isDigit = true) ∧
    digitsToNat (natDigitsAux fuel n) = n ∧ natDigitsAux fuel n ≠ [] := by
  intro fuel
  induction fuel with
  | zero => intro n h; omega
  | succ f ih =>
    intro n hn
    by_cases h10 : n < 10
    · simp only [natDigitsAux, if_pos h10]
      refine ⟨?_, ?_, by simp⟩
      · intro c hc
        rw [List.mem_singleton] at hc
        subst hc
        exact digitChar_isDigit n h10
      · show digitsToNat ([] ++ [digitChar n]) = n
        rw [digitsToNat_append_digit, digitChar_toNat n h10]
        simp [digitsToNat]
    · have hdivlt : n / 10 < f := by
        have := Nat.div_lt_self (by omega : 0 < n) (by omega : 1 < 10)
        omega
      obtain ⟨hd, hv, _⟩ := ih (n / 10) hdivlt
      simp only [natDigitsAux, if_neg h10]
      refine ⟨?_, ?_, by simp⟩
      · intro c hc
        rcases List.mem_append.1 hc with hc | hc
        · exact hd c hc
        · rw [List.mem_singleton] at hc
          subst hc
          exact digitChar_isDigit _ (Nat.mod_lt n (by omega))
      · rw [digitsToNat_append_digit, hv, digitChar_toNat _ (Nat.mod_lt n (by omega))]
        omega

theorem natDigits_spec (n : Nat) :
    (∀ c ∈ natDigits n, c.isDigit = true) ∧
    digitsToNat (natDigits n) = n ∧ natDigits n ≠ [] :=
  natDigitsAux_spec (n + 1) n (by omega)

theorem takeWhile_digits_append (ds : List Char) (x : Char) (r : List Char)
    (hds : ∀ c ∈ ds, c.isDigit = true) (hx : x.isDigit = false) :
    (ds ++ x :: r).takeWhile Char.isDigit = ds ∧
    (ds ++ x :: r).dropWhile Char.isDigit = x :: r := by
  induction ds with
  | nil =>
    constructor
    · rw [List.nil_append, List.takeWhile_cons, if_neg (by simp [hx])]
    · rw [List.nil_append, List.dropWhile_cons, if_neg (by simp [hx])]
  | cons d ds ih =>
    have hd : d.isDigit = true := hds d (by simp)
    obtain ⟨h1, h2⟩ := ih (fun c hc => hds c (by simp [hc]))
    constructor
    · rw [List.cons_append, List.takeWhile_cons, if_pos (by simp [hd]), h1]
    · rw [List.cons_append, List.dropWhile_cons, if_pos (by simp [hd]), h2]

theorem expectDot_cons (r : List Char) : expectDot ('.' :: r) = some r := rfl

/-- The `(\d+)\.(\d+)\.xlsx` tail pattern accepts two digit runs and reads
their values back. -/
theorem matchTail_digits (d1 d2 : List Char)
    (h1 : ∀ c ∈ d1, c.isDigit = true) (hn1 : d1 ≠ [])
    (h2 : ∀ c ∈ d2, c.isDigit = true) (hn2 : d2 ≠ []) :
    matchTail (d1 ++ '.' :: (d2 ++ ('.' :: 'x' :: 'l' :: 's' :: 'x' :: [])))
      = some (digitsToNat d1, digitsToNat d2) := by
  obtain ⟨ht1, hd1⟩ := takeWhile_digits_append d1 '.'
    (d2 ++ ('.' :: 'x' :: 'l' :: 's' :: 'x' :: [])) h1 (by decide)
  obtain ⟨ht2, hd2⟩ := takeWhile_digits_append d2 '.' ('x' :: 'l' :: 's' :: 'x' :: []) h2
    (by decide)
  unfold matchTail
  rw [ht1, hd1, if_neg hn1, expectDot_cons, Option.some_bind]
  show (if (d2 ++ '.' :: 'x' :: 'l' :: 's' :: 'x' :: []).takeWhile Char.isDigit = []
      then none
      else if ".xlsx".toList.isPrefixOf
          ((d2 ++ '.' :: 'x' :: 'l' :: 's' :: 'x' :: []).dropWhile Char.isDigit) then
        some (digitsToNat d1,
          digitsToNat ((d2 ++ '.' :: 'x' :: 'l' :: 's' :: 'x' :: []).takeWhile Char.isDigit))
      else none)
    = some (digitsToNat d1, digitsToNat d2)
  rw [ht2, hd2, if_neg hn2, if_pos (by decide)]

theorem matchTail_roundtrip (a b : Nat) :
    matchTail (natDigits a ++ '.' :: (natDigits b ++ ('.' :: 'x' :: 'l' :: 's' :: 'x' :: [])))
      = some (a, b) := by
  obtain ⟨hda, hva, hna⟩ := natDigits_spec a
  obtain ⟨hdb, hvb, hnb⟩ := natDigits_spec b
  rw [matchTail_digits (natDigits a) (natDigits b) hda hna hdb hnb, hva, hvb]

theorem matchChars_header (rest : List Char) :
    matchChars ('M' :: 'a' :: 't' :: 'r' :: 'i' :: 'x' :: '_' :: 'v' :: rest)
      = matchTail rest := rfl

theorem matchPathChars_header (rest : List Char) :
    matchPathChars ('F' :: 'l' :: 'o' :: 'w' :: '_' :: 'M' :: 'a' :: 't' :: 'r' :: 'i' ::
      'x' :: '/' :: rest) = matchChars rest := rfl

theorem matchPathChars_concat (s : String) :
    matchPathChars ("Flow_Matrix/" ++ s).toList = matchChars s.toList := by
  show matchPathChars ("Flow_Matrix/" ++ s).data = matchChars s.data
  rw [String.data_append]
  exact matchPathChars_header s.data

theorem toList_rendered (a b : Nat) :
    ("Matrix_v" ++ natRepr a ++ "." ++ natRepr b ++ ".xlsx").toList
      = 'M' :: 'a' :: 't' :: 'r' :: 'i' :: 'x' :: '_' :: 'v' ::
        (natDigits a ++ '.' :: (natDigits b ++ ('.' :: 'x' :: 'l' :: 's' :: 'x' :: []))) := by
  show ("Matrix_v" ++ natRepr a ++ "." ++ natRepr b ++ ".xlsx").data = _
  rw [String.data_append, String.data_append, String.data_append, String.data_append,
    List.append_assoc, List.append_assoc, List.append_assoc]
  rfl

/-- The rendered next name parses back to the bumped version. -/
theorem matchChars_rendered (a b : Nat) :
    matchChars ("Matrix_v" ++ natRepr a ++ "." ++ natRepr b ++ ".xlsx").toList
      = some (a, b) := by
  rw [toList_rendered, matchChars_header, matchTail_roundtrip]

/-- Claim C5: every run writes a file whose version is (1,0) when no prior
matrix file matches the pattern, and otherwise (M, m+1) where (M, m) is the
maximal existing version in lexicographic order — the major number is kept,
the minor advances by exactly one, and the new version is strictly above
every existing one. -/
theorem c5_version_monotone (files : List String) :
    (files.filterMap matchMatrixName = [] → producedVersion files = some (1, 0)) ∧
    (files.filterMap matchMatrixName ≠ [] →
      ∃ M m, (M, m) ∈ files.filterMap matchMatrixName ∧
        (∀ q ∈ files.filterMap matchMatrixName, toLex q ≤ toLex (M, m)) ∧
        (∀ q ∈ files.filterMap matchMatrixName, toLex q < toLex (M, m + 1)) ∧
        producedVersion files = some (M, m + 1)) := by
  constructor
  · intro hnil
    have hmatch : files.filter (fun f => (matchMatrixName f).isSome) = [] := by
      rw [List.filter_eq_nil_iff]
      intro f hf
      have h := List.filterMap_eq_nil_iff.1 hnil f hf
      simp [h]
    have hg : get_latest_matrix files = none := by
      unfold get_latest_matrix
      rw [hmatch]
      rfl
    unfold producedVersion new_excel_name
    rw [hg]
    decide
  · intro hne
    have hex : ∃ g, g ∈ files.filter (fun f => (matchMatrixName f).isSome) := by
      cases hfm : files.filterMap matchMatrixName with
      | nil => exact absurd hfm hne
      | cons p ps =>
        have hp : p ∈ files.filterMap matchMatrixName := by rw [hfm]; simp
        obtain ⟨g, hg, hgp⟩ := List.mem_filterMap.1 hp
        exact ⟨g, List.mem_filter.2 ⟨hg, by simp [hgp]⟩⟩
    obtain ⟨g, hgfil⟩ := hex
    cases hsort : stableSortDesc versionKey
        (files.filter (fun f => (matchMatrixName f).isSome)) with
    | nil =>
      exfalso
      have h := (mem_stableSortDesc versionKey g _).2 hgfil
      rw [hsort] at h
      simp at h
    | cons f0 tail =>
      have hf0mem : f0 ∈ files.filter (fun f => (matchMatrixName f).isSome) := by
        have h : f0 ∈ stableSortDesc versionKey
            (files.filter (fun f => (matchMatrixName f).isSome)) := by
          rw [hsort]
          simp
        exact (mem_stableSortDesc _ _ _).1 h
      rw [List.mem_filter] at hf0mem
      obtain ⟨hf0files, hf0some⟩ := hf0mem
      obtain ⟨⟨M, m⟩, hMm⟩ := Option.isSome_iff_exists.1 (by simpa using hf0some)
      have hmax : ∀ q ∈ files.filterMap matchMatrixName, toLex q ≤ toLex (M, m) := by
        intro q hq
        obtain ⟨g', hg', hgq⟩ := List.mem_filterMap.1 hq
        have hg'fil : g' ∈ files.filter (fun f => (matchMatrixName f).isSome) :=
          List.mem_filter.2 ⟨hg', by simp [hgq]⟩
        have hg'sorted : g' ∈ f0 :: tail := by
          rw [← hsort]
          exact (mem_stableSortDesc _ _ _).2 hg'fil
        have hsorted := sorted_stableSortDesc versionKey
          (files.filter (fun f => (matchMatrixName f).isSome))
        rw [hsort, SortedDesc, List.pairwise_cons] at hsorted
        obtain ⟨hmax0, -⟩ := hsorted
        have hle : versionKey g' ≤ versionKey f0 := by
          rcases List.mem_cons.1 hg'sorted with rfl | hmem
          · exact le_refl _
          · exact hmax0 g' hmem
        unfold versionKey at hle
        rw [hgq, hMm] at hle
        simpa using hle
      refine ⟨M, m, List.mem_filterMap.2 ⟨f0, hf0files, hMm⟩, hmax, ?_, ?_⟩
      · intro q hq
        have hlt : toLex (M, m) < toLex (M, m + 1) := by
          rw [Prod.Lex.lt_iff]
          right
          exact ⟨rfl, by omega⟩
        exact lt_of_le_of_lt (hmax q hq) hlt
      · have hg : get_latest_matrix files = some ("Flow_Matrix/" ++ f0) := by
          unfold get_latest_matrix
          rw [hsort]
        have hnv : next_version ("Flow_Matrix/" ++ f0)
            = "Matrix_v" ++ natRepr M ++ "." ++ natRepr (m + 1) ++ ".xlsx" := by
          unfold next_version
          rw [show matchPathChars ("Flow_Matrix/" ++ f0).toList = some (M, m) by
            rw [matchPathChars_concat]; exact hMm]
        unfold producedVersion new_excel_name
        rw [hg]
        show matchPathChars ("Flow_Matrix/" ++ next_version ("Flow_Matrix/" ++ f0)).toList
          = some (M, m + 1)
        rw [hnv, matchPathChars_concat, matchChars_rendered]

/-- Claim C5, witness: from existing files Matrix_v1.0.xlsx, Matrix_v1.1.xlsx
and an unrelated file the run produces version (1,2); with no files at all it
produces (1,0). -/
theorem c5_version_monotone_witness :
    ((["Matrix_v1.0.xlsx", "Matrix_v1.1.xlsx", "junk.txt"] : List String).filterMap
      matchMatrixName ≠ []) ∧
    (∃ M m, (M, m) ∈ (["Matrix_v1.0.xlsx", "Matrix_v1.1.xlsx", "junk.txt"] :
        List String).filterMap matchMatrixName ∧
      (∀ q ∈ (["Matrix_v1.0.xlsx", "Matrix_v1.1.xlsx", "junk.txt"] :
          List String).filterMap matchMatrixName, toLex q ≤ toLex (M, m)) ∧
      (∀ q ∈ (["Matrix_v1.0.xlsx", "Matrix_v1.1.xlsx", "junk.txt"] :
          List String).filterMap matchMatrixName, toLex q < toLex (M, m + 1)) ∧
      producedVersion ["Matrix_v1.0.xlsx", "Matrix_v1.1.xlsx", "junk.txt"]
        = some (M, m + 1)) ∧
    producedVersion [] = some (1, 0) :=
  ⟨by decide,
    (c5_version_monotone ["Matrix_v1.0.xlsx", "Matrix_v1.1.xlsx", "junk.txt"]).2 (by decide),
    (c5_version_monotone []).1 rfl⟩
